import Mathlib

/-!
Verification development for the image-size-converter repository.

The repository holds two Python command-line tools:
  - Tool A, src/image_shrinker.py: generates iOS 1x/2x/3x variants of one image.
  - Tool B, src/resize_app_store_screenshots.py: batch-resizes screenshots to
    App Store target sizes with pad / crop / stretch layout strategies.

This file shallowly embeds both tools.  Pillow library primitives
(Image.open, resize, paste, crop, rotate, exif_transpose, convert, new) are
modeled by executable Lean functions following Pillow's documented behavior:
rasters are records of width, height, color mode and a pixel function.
Lanczos resampling itself is delegated by the source to Pillow and is modeled
as point sampling; no theorem below observes resampled pixel values, only
dimensions, modes, offsets, and pixel data flow.  Python string and path
helpers (str.strip, str.lower, str.split, int(), os.path.basename,
os.path.splitext, os.path.join) are modeled character-exactly on lists of
characters, restricted to ASCII text.
-/

/-! ## Python character and string primitives, on lists of characters -/

/-- ASCII decimal digit test, as used by int() parsing. -/
def pyIsDigit (c : Char) : Bool := decide (48 ≤ c.toNat ∧ c.toNat ≤ 57)

/-- ASCII hexadecimal digit test, as used by int(_, 16) parsing. -/
def pyIsHexDigit (c : Char) : Bool :=
  decide ((48 ≤ c.toNat ∧ c.toNat ≤ 57) ∨ (97 ≤ c.toNat ∧ c.toNat ≤ 102) ∨
    (65 ≤ c.toNat ∧ c.toNat ≤ 70))

/-- Whitespace test for str.strip and int() argument stripping (ASCII range). -/
def pyIsWS (c : Char) : Bool :=
  (c == ' ') || (c == '\t') || (c == '\n') || (c == '\r') || (c == '\x0b') || (c == '\x0c')

/-- Lowercasing of one character, as str.lower does on ASCII text. -/
def pyLowerChar (c : Char) : Char :=
  if 65 ≤ c.toNat ∧ c.toNat ≤ 90 then Char.ofNat (c.toNat + 32) else c

/-- str.lower on a list of characters. -/
def pyLower (l : List Char) : List Char := l.map pyLowerChar

/-- str.strip with no argument: remove whitespace from both ends. -/
def pyStrip (l : List Char) : List Char :=
  ((l.dropWhile pyIsWS).reverse.dropWhile pyIsWS).reverse

/-- Helper for str.split(sep): accumulates the current field in reverse. -/
def splitOnCharAux (sep : Char) : List Char → List Char → List (List Char)
  | [], acc => [acc.reverse]
  | c :: cs, acc =>
    if c = sep then acc.reverse :: splitOnCharAux sep cs []
    else splitOnCharAux sep cs (c :: acc)

/-- str.split(sep) for a one-character separator; like Python it yields a
single (possibly empty) field when the separator does not occur. -/
def splitOnChar (sep : Char) (l : List Char) : List (List Char) :=
  splitOnCharAux sep l []

/-- Numeric value of a list of ASCII decimal digits, most significant first. -/
def digitsVal (l : List Char) : ℕ :=
  l.foldl (fun a c => 10 * a + (c.toNat - 48)) 0

/-- Numeric value of one ASCII hex digit. -/
def hexDigitVal (c : Char) : ℕ :=
  if 48 ≤ c.toNat ∧ c.toNat ≤ 57 then c.toNat - 48
  else if 97 ≤ c.toNat ∧ c.toNat ≤ 102 then c.toNat - 87
  else if 65 ≤ c.toNat ∧ c.toNat ≤ 70 then c.toNat - 55
  else 0

/-- Numeric value of a list of ASCII hex digits, most significant first. -/
def hexDigitsVal (l : List Char) : ℕ :=
  l.foldl (fun a c => 16 * a + hexDigitVal c) 0

/-- Tail of the digit part of a Python base-10 integer literal: digits with
single underscores allowed only between digits. -/
def intDigitsTail : List Char → Bool
  | [] => true
  | c :: rest =>
    if c = '_' then
      match rest with
      | [] => false
      | c2 :: r2 => pyIsDigit c2 && intDigitsTail r2
    else pyIsDigit c && intDigitsTail rest

/-- Validity of the digit part of a Python base-10 integer literal: nonempty
digits with single underscores allowed only between digits. -/
def intDigitsOK : List Char → Bool
  | [] => false
  | c :: rest => pyIsDigit c && intDigitsTail rest

/-- Tail of the digit part of a Python base-16 integer literal. -/
def hexDigitsTail : List Char → Bool
  | [] => true
  | c :: rest =>
    if c = '_' then
      match rest with
      | [] => false
      | c2 :: r2 => pyIsHexDigit c2 && hexDigitsTail r2
    else pyIsHexDigit c && hexDigitsTail rest

/-- Validity of the digit part of a Python base-16 integer literal. -/
def hexDigitsOK : List Char → Bool
  | [] => false
  | c :: rest => pyIsHexDigit c && hexDigitsTail rest

/-- Python int(s): strip whitespace, optional sign, base-10 digits with
underscore separators.  Returns the Python ValueError as an error value. -/
def pyInt (l : List Char) : Except String ℤ :=
  let t := pyStrip l
  if t.head? = some '-' then
    if intDigitsOK t.tail then .ok (-(digitsVal (t.tail.filter pyIsDigit) : ℤ))
    else .error ("invalid literal for int() with base 10: " ++ String.mk l)
  else if t.head? = some '+' then
    if intDigitsOK t.tail then .ok ((digitsVal (t.tail.filter pyIsDigit) : ℤ))
    else .error ("invalid literal for int() with base 10: " ++ String.mk l)
  else
    if intDigitsOK t then .ok ((digitsVal (t.filter pyIsDigit) : ℤ))
    else .error ("invalid literal for int() with base 10: " ++ String.mk l)

/-- Python int(s, 16) on short slices: strip, optional sign, hex digits.
The "0x" literal marker is not modeled: on the two-character slices this is
applied to, "0x" is rejected by both Python and this model. -/
def pyIntHex (l : List Char) : Except String ℤ :=
  let t := pyStrip l
  if t.head? = some '-' then
    if hexDigitsOK t.tail then .ok (-(hexDigitsVal (t.tail.filter pyIsHexDigit) : ℤ))
    else .error ("invalid literal for int() with base 16: " ++ String.mk l)
  else if t.head? = some '+' then
    if hexDigitsOK t.tail then .ok ((hexDigitsVal (t.tail.filter pyIsHexDigit) : ℤ))
    else .error ("invalid literal for int() with base 16: " ++ String.mk l)
  else
    if hexDigitsOK t then .ok ((hexDigitsVal (t.filter pyIsHexDigit) : ℤ))
    else .error ("invalid literal for int() with base 16: " ++ String.mk l)

/-- Decimal digit character for a value below ten. -/
def digitOf (d : ℕ) : Char :=
  match d with
  | 0 => '0' | 1 => '1' | 2 => '2' | 3 => '3' | 4 => '4'
  | 5 => '5' | 6 => '6' | 7 => '7' | 8 => '8' | _ => '9'

/-- Decimal representation of a natural number, fueled for structural
recursion; with fuel above the number it agrees with Python str(). -/
def natDecAux : ℕ → ℕ → List Char
  | 0, _ => []
  | fuel + 1, n =>
    if n < 10 then [digitOf n]
    else natDecAux fuel (n / 10) ++ [digitOf (n % 10)]

/-- Python str() of a natural number. -/
def natDecimal (n : ℕ) : String := String.mk (natDecAux (n + 1) n)

/-- Python str() of an integer. -/
def intRepr (a : ℤ) : String :=
  if a < 0 then String.mk ('-' :: natDecAux ((-a).toNat + 1) (-a).toNat)
  else natDecimal a.toNat

/-! ## Path helpers: os.path.basename, os.path.splitext, os.path.join -/

/-- os.path.basename: the component after the last slash. -/
def basenameL (l : List Char) : List Char :=
  (l.reverse.takeWhile (fun c => !(c == '/'))).reverse

/-- Stem part of os.path.splitext: everything before the last dot, except
that dots leading the name do not start an extension. -/
def splitextStemL (l : List Char) : List Char :=
  let lead := l.takeWhile (fun c => c == '.')
  let rest := l.dropWhile (fun c => c == '.')
  if rest.any (fun c => c == '.') then
    lead ++ ((rest.reverse.dropWhile (fun c => !(c == '.'))).drop 1).reverse
  else l

/-- Extension part of os.path.splitext, including the dot when present. -/
def splitextExtL (l : List Char) : List Char :=
  let rest := l.dropWhile (fun c => c == '.')
  if rest.any (fun c => c == '.') then
    '.' :: (rest.reverse.takeWhile (fun c => !(c == '.'))).reverse
  else []

/-- Directory part of a path: everything before the last slash (empty when
there is no slash), as os.path.dirname gives on the paths this repository
builds. -/
def dirnameL (l : List Char) : List Char :=
  if l.any (fun c => c == '/') then
    ((l.reverse.dropWhile (fun c => !(c == '/'))).drop 1).reverse
  else []

/-- os.path.join for the relative two-component joins this repository
performs. -/
def pathJoin (a b : String) : String :=
  if a = "" then b
  else if a.data.getLast? = some '/' then a ++ b
  else a ++ "/" ++ b

/-- First-occurrence match of a pattern at the front of a list. -/
def matchesAt : List Char → List Char → Bool
  | [], _ => true
  | _ :: _, [] => false
  | p :: ps, c :: cs => p == c && matchesAt ps cs

/-- str.replace(pat, rep): non-overlapping left-to-right replacement,
fueled for structural recursion. -/
def replaceAllAux (pat rep : List Char) : ℕ → List Char → List Char
  | 0, l => l
  | _ + 1, [] => []
  | fuel + 1, c :: cs =>
    if pat ≠ [] ∧ matchesAt pat (c :: cs) then
      rep ++ replaceAllAux pat rep fuel ((c :: cs).drop pat.length)
    else c :: replaceAllAux pat rep fuel cs

/-- str.replace(pat, rep) on lists of characters. -/
def replaceAll (pat rep l : List Char) : List Char :=
  replaceAllAux pat rep l.length l

/-! ## The raster image model -/

/-- An RGB color triple; components are integers because the hex color parser
in the source can in principle produce signed values. -/
abbrev Color := ℤ × ℤ × ℤ

/-- Pillow color modes as far as the source distinguishes them: RGB, RGBA,
and every other mode (L, P, CMYK, ...) lumped as `other`, since the source
only tests membership in ("RGB", "RGBA"). -/
inductive PMode
  | RGB
  | RGBA
  | other
deriving DecidableEq, Repr

/-- A decoded raster: dimensions, color mode, the EXIF orientation tag
(1 to 8; 1 or anything unrecognized means no transposition), and the pixel
grid as a function from coordinates to an RGB triple.  Alpha values are not
tracked pointwise; the presence of an alpha channel is carried by the mode. -/
structure Image where
  width : ℕ
  height : ℕ
  mode : PMode
  exifOrientation : ℕ
  pixel : ℕ → ℕ → Color

/-- Pillow FLIP_LEFT_RIGHT. -/
def flipLR (im : Image) : Image :=
  { im with pixel := fun x y => im.pixel (im.width - 1 - x) y }

/-- Pillow FLIP_TOP_BOTTOM. -/
def flipTB (im : Image) : Image :=
  { im with pixel := fun x y => im.pixel x (im.height - 1 - y) }

/-- Pillow ROTATE_180. -/
def rot180 (im : Image) : Image :=
  { im with pixel := fun x y => im.pixel (im.width - 1 - x) (im.height - 1 - y) }

/-- Pillow TRANSPOSE: reflect along the top-left diagonal, swapping
dimensions. -/
def transposeDiag (im : Image) : Image :=
  { width := im.height, height := im.width, mode := im.mode,
    exifOrientation := im.exifOrientation, pixel := fun x y => im.pixel y x }

/-- Pillow ROTATE_90 (a quarter turn counter-clockwise), swapping
dimensions. -/
def rot90ccw (im : Image) : Image :=
  { width := im.height, height := im.width, mode := im.mode,
    exifOrientation := im.exifOrientation,
    pixel := fun x y => im.pixel (im.width - 1 - y) x }

/-- Pillow ROTATE_270 (a quarter turn clockwise), swapping dimensions. -/
def rot270ccw (im : Image) : Image :=
  { width := im.height, height := im.width, mode := im.mode,
    exifOrientation := im.exifOrientation,
    pixel := fun x y => im.pixel y (im.height - 1 - x) }

/-- Pillow TRANSVERSE: reflect along the bottom-right diagonal, swapping
dimensions. -/
def transverseDiag (im : Image) : Image :=
  { width := im.height, height := im.width, mode := im.mode,
    exifOrientation := im.exifOrientation,
    pixel := fun x y => im.pixel (im.width - 1 - y) (im.height - 1 - x) }

/-- ImageOps.exif_transpose: apply the transposition selected by the EXIF
orientation tag and clear the tag; tags outside 2..8 leave the image as is. -/
def exif_transpose (im : Image) : Image :=
  match im.exifOrientation with
  | 2 => { flipLR im with exifOrientation := 1 }
  | 3 => { rot180 im with exifOrientation := 1 }
  | 4 => { flipTB im with exifOrientation := 1 }
  | 5 => { transposeDiag im with exifOrientation := 1 }
  | 6 => { rot270ccw im with exifOrientation := 1 }
  | 7 => { transverseDiag im with exifOrientation := 1 }
  | 8 => { rot90ccw im with exifOrientation := 1 }
  | _ => im

/-- Image.convert("RGB"): the result mode is RGB; per-channel color
conversion is delegated to Pillow, so the modeled pixel grid is unchanged. -/
def convertRGB (im : Image) : Image := { im with mode := PMode.RGB }

/-- The mode normalization step shared by all three layout strategies:
convert to RGB unless the mode is already RGB or RGBA. -/
def normalize3 (im : Image) : Image :=
  if im.mode = PMode.RGB ∨ im.mode = PMode.RGBA then im else convertRGB im

/-- Image.resize((nw, nh), LANCZOS): exact target dimensions, mode kept.
Lanczos resampling is delegated to Pillow; the model point-samples the
source, which no theorem below inspects. -/
def resize (im : Image) (nw nh : ℕ) : Image :=
  { width := nw, height := nh, mode := im.mode,
    exifOrientation := im.exifOrientation,
    pixel := fun x y => im.pixel (x * im.width / nw) (y * im.height / nh) }

/-- Image.new("RGB", (w, h), bg): a solid canvas. -/
def newImage (w h : ℕ) (bg : Color) : Image :=
  { width := w, height := h, mode := PMode.RGB, exifOrientation := 1,
    pixel := fun _ _ => bg }

/-- canvas.paste(src, (x, y)): pixels inside the pasted rectangle come from
the source, clipped to the canvas; dimensions and mode are the canvas's. -/
def paste (canvas src : Image) (x y : ℤ) : Image :=
  { canvas with pixel := fun a b =>
      if x ≤ (a : ℤ) ∧ (a : ℤ) < x + src.width ∧ y ≤ (b : ℤ) ∧ (b : ℤ) < y + src.height
      then src.pixel ((a : ℤ) - x).toNat ((b : ℤ) - y).toNat
      else canvas.pixel a b }

/-- im.crop((left, top, right, bottom)): dimensions are the box's; pixels
outside the source bounds read as black, as Pillow fills them. -/
def crop (im : Image) (left top right bottom : ℤ) : Image :=
  { width := (right - left).toNat, height := (bottom - top).toNat,
    mode := im.mode, exifOrientation := im.exifOrientation,
    pixel := fun a b =>
      if 0 ≤ left + a ∧ left + a < im.width ∧ 0 ≤ top + b ∧ top + b < im.height
      then im.pixel (left + a).toNat (top + b).toNat
      else (0, 0, 0) }

/-- im.rotate(90, expand=True): a quarter turn counter-clockwise with the
canvas expanded, so dimensions swap. -/
def rotate90expand (im : Image) : Image :=
  { width := im.height, height := im.width, mode := im.mode,
    exifOrientation := im.exifOrientation,
    pixel := fun x y => im.pixel (im.width - 1 - y) x }

/-! ## The geometry of Tool B's strategies -/

/-- Python round(): round half to even, on exact rationals. -/
def pyRound (q : ℚ) : ℤ :=
  if q - ⌊q⌋ < 1 / 2 then ⌊q⌋
  else if (1 : ℚ) / 2 < q - ⌊q⌋ then ⌊q⌋ + 1
  else if ⌊q⌋ % 2 = 0 then ⌊q⌋ else ⌊q⌋ + 1

/-- The fit scale of pad mode: min(tw/ow, th/oh). -/
def padScale (ow oh tw th : ℕ) : ℚ :=
  min ((tw : ℚ) / (ow : ℚ)) ((th : ℚ) / (oh : ℚ))

/-- The cover scale of crop mode: max(tw/ow, th/oh). -/
def cropScale (ow oh tw th : ℕ) : ℚ :=
  max ((tw : ℚ) / (ow : ℚ)) ((th : ℚ) / (oh : ℚ))

/-- A scaled dimension: max(1, int(round(d * scale))). -/
def roundDim (d : ℕ) (s : ℚ) : ℕ :=
  (max 1 (pyRound ((d : ℕ) * s))).toNat

/-- fit_and_pad from the source: EXIF-correct, normalize mode, scale to fit,
resize, and paste centered on a background canvas of the exact target size. -/
def fit_and_pad (im : Image) (target : ℕ × ℕ) (bg : Color) : Image :=
  let tw := target.1
  let th := target.2
  let im2 := normalize3 (exif_transpose im)
  let ow := im2.width
  let oh := im2.height
  let s := padScale ow oh tw th
  let nw := roundDim ow s
  let nh := roundDim oh s
  let resized := resize im2 nw nh
  let canvas := newImage tw th bg
  paste canvas resized (Int.fdiv ((tw : ℤ) - (nw : ℤ)) 2) (Int.fdiv ((th : ℤ) - (nh : ℤ)) 2)

/-- cover_and_crop from the source: EXIF-correct, normalize mode, scale to
cover, resize, and center-crop to the exact target size. -/
def cover_and_crop (im : Image) (target : ℕ × ℕ) : Image :=
  let tw := target.1
  let th := target.2
  let im2 := normalize3 (exif_transpose im)
  let ow := im2.width
  let oh := im2.height
  let s := cropScale ow oh tw th
  let nw := roundDim ow s
  let nh := roundDim oh s
  let resized := resize im2 nw nh
  let x := Int.fdiv ((nw : ℤ) - (tw : ℤ)) 2
  let y := Int.fdiv ((nh : ℤ) - (th : ℤ)) 2
  crop resized x y (x + tw) (y + th)

/-- stretch_resize from the source: EXIF-correct, normalize mode, resize
directly to the target, ignoring aspect ratio. -/
def stretch_resize (im : Image) (target : ℕ × ℕ) : Image :=
  resize (normalize3 (exif_transpose im)) target.1 target.2

/-! ## Tool A: image_shrinker.generate_ios_assets -/

/-- generate_ios_assets from src/image_shrinker.py: emits the 3x copy, the
2x variant at (width // 3 * 2, height // 3 * 2), and the 1x variant at
(width // 3, height // 3), as (output path, raster) pairs in save order. -/
def generate_ios_assets (img : Image) (image_path : String) : List (String × Image) :=
  let filename := splitextStemL (basenameL image_path.data)
  let ext := splitextExtL (basenameL image_path.data)
  let base_name := replaceAll "@3x".data [] filename
  let output_dir := String.mk (dirnameL image_path.data)
  [ (pathJoin output_dir (String.mk (base_name ++ "@3x".data ++ ext)), img),
    (pathJoin output_dir (String.mk (base_name ++ "@2x".data ++ ext)),
      resize img (img.width / 3 * 2) (img.height / 3 * 2)),
    (pathJoin output_dir (String.mk (base_name ++ ext)),
      resize img (img.width / 3) (img.height / 3)) ]

/-! ## Tool B: parsing, input discovery, naming, and the batch driver -/

/-- parse_sizes from the source: split on commas, strip and lowercase each
token, require an embedded letter x, split at the first x, and parse both
sides with int(); any int() failure aborts the whole parse, as the raised
ValueError does. -/
def parse_sizes (s : String) : Except String (List (ℤ × ℤ)) :=
  (splitOnChar ',' s.data).mapM (fun tokenRaw => do
    let token := pyLower (pyStrip tokenRaw)
    if 'x' ∈ token then
      let w := token.takeWhile (fun c => !(c == 'x'))
      let h := (token.dropWhile (fun c => !(c == 'x'))).drop 1
      let wi ← pyInt w
      let hi ← pyInt h
      pure (wi, hi)
    else Except.error ("Bad size token: " ++ String.mk token))

/-- parse_hex_color from the source: strip whitespace, strip leading number
signs of the hash character, require length 3 or 6, double each character of
a short form, and parse the three two-character slices with int(_, 16). -/
def parse_hex_color (s : String) : Except String Color := do
  let t := (pyStrip s.data).dropWhile (fun c => c == '#')
  if t.length = 6 ∨ t.length = 3 then
    let t6 := if t.length = 3 then t.flatMap (fun c => [c, c]) else t
    let r ← pyIntHex (t6.take 2)
    let g ← pyIntHex ((t6.drop 2).take 2)
    let b ← pyIntHex ((t6.drop 4).take 2)
    pure (r, g, b)
  else Except.error "bg color must be #RGB or #RRGGBB"

/-- The extension allow-list of gather_inputs, lowercase with dots. -/
def ALLOWED_EXTS : List String := [".png", ".jpg", ".jpeg", ".heic", ".webp"]

/-- The slice of the filesystem the batch driver consults: a directory test,
a recursive walk yielding (root, files-in-root) pairs in walk order, and an
image opener whose error value stands for the exception Image.open or
decoding raises. -/
structure FS where
  isdir : String → Bool
  walk : String → List (String × List String)
  openImg : String → Except String Image

/-- gather_inputs from the source: directories are walked recursively and
their files filtered by the lowercased-suffix allow-list; every
non-directory argument is appended as is, with no filtering. -/
def gather_inputs (fs : FS) (paths : List String) : List String :=
  paths.flatMap (fun p =>
    if fs.isdir p then
      (fs.walk p).flatMap (fun rf =>
        (rf.2.filter (fun f =>
          decide (∃ e ∈ ALLOWED_EXTS, e.data <:+ pyLower f.data))).map
          (fun f => pathJoin rf.1 f))
    else [p])

/-- The output filename pattern of save_variant:
name_{w}x{h}{suffix}.{format-lowercased}, name being the stem of the
source's basename. -/
def variant_filename (base : String) (w h : ℕ) (fmt sfx : String) : String :=
  String.mk (splitextStemL (basenameL base.data) ++
    '_' :: natDecAux (w + 1) w ++ 'x' :: natDecAux (h + 1) h ++
    sfx.data ++ '.' :: pyLower fmt.data)

/-- save_variant from the source: build the output path, and for jpeg output
convert an RGBA raster to RGB before saving.  Returns the path and the
raster as saved. -/
def save_variant (img : Image) (outdir base : String) (size : ℕ × ℕ)
    (fmt : String) (sfx : String) : String × Image :=
  let fn := variant_filename base size.1 size.2 fmt sfx
  let path := pathJoin outdir fn
  let img2 :=
    if (pyLower fmt.data = "jpg".data ∨ pyLower fmt.data = "jpeg".data) ∧
        img.mode = PMode.RGBA
    then convertRGB img else img
  (path, img2)

/-- The --mode choices of the argument parser. -/
inductive RMode
  | pad
  | crop
  | stretch
deriving DecidableEq, Repr

/-- The parsed command line of Tool B, after argparse has enforced its
choices; defaults follow the source. -/
structure Args where
  input : List String
  outdir : String := "./out_6p7"
  sizes : String := "1290x2796,1320x2868"
  mode : RMode := RMode.pad
  bg : String := "#000000"
  fmt : String := "png"
  landscape : Bool := false

/-- Externally visible effects of one run, in order: messages to the error
stream, messages to standard output, the idempotent creation of the output
directory, and file writes. -/
inductive Event
  | errOut (msg : String)
  | out (msg : String)
  | mkdirp (dir : String)
  | wrote (path : String) (img : Image)

/-- The strategy dispatch of the main loop body. -/
def strategyApply (mode : RMode) (bg : Color) (im : Image) (t : ℕ × ℕ) : Image :=
  match mode with
  | RMode.pad => fit_and_pad im t bg
  | RMode.crop => cover_and_crop im t
  | RMode.stretch => stretch_resize im t

/-- The body of the per-target loop of main: run the strategy, save the
result, and when --landscape is set also save the 90-degree rotated variant
under the swapped size and the _landscape suffix.  Non-positive size
components are clamped at zero here; the source would instead fail inside
Pillow and be caught by the per-file handler, a path no theorem below
traverses. -/
def processTarget (mode : RMode) (bg : Color) (outdir fmt path : String)
    (landscape : Bool) (im : Image) (t : ℤ × ℤ) : List Event :=
  let tw := t.1.toNat
  let th := t.2.toNat
  let out_im := strategyApply mode bg im (tw, th)
  let sv := save_variant out_im outdir path (tw, th) fmt ""
  [Event.wrote sv.1 sv.2, Event.out ("Wrote " ++ sv.1)] ++
  (if landscape then
    let out_land := rotate90expand out_im
    let sv2 := save_variant out_land outdir path (th, tw) fmt "_landscape"
    [Event.wrote sv2.1 sv2.2, Event.out ("Wrote " ++ sv2.1)]
  else [])

/-- The per-input body of main: open the image; a failure is caught, logged
to the error stream with the offending path, and processing moves on. -/
def processInput (fs : FS) (targets : List (ℤ × ℤ)) (mode : RMode) (bg : Color)
    (outdir fmt : String) (landscape : Bool) (path : String) : List Event :=
  match fs.openImg path with
  | Except.error e => [Event.errOut ("Failed on " ++ path ++ ": " ++ e)]
  | Except.ok im => targets.flatMap (processTarget mode bg outdir fmt path landscape im)

/-- main from the source: parse --sizes then --bg, each failure reported to
the error stream with exit code 2 before anything else happens; resolve
inputs and fail the same way when none are found; otherwise create the
output directory, process every input, and return 0. -/
def runMain (fs : FS) (args : Args) : ℤ × List Event :=
  match parse_sizes args.sizes with
  | Except.error e => (2, [Event.errOut ("Error parsing --sizes: " ++ e)])
  | Except.ok targets =>
    match parse_hex_color args.bg with
    | Except.error e => (2, [Event.errOut ("Error parsing --bg: " ++ e)])
    | Except.ok bg =>
      let inputs := gather_inputs fs args.input
      if inputs = [] then (2, [Event.errOut "No input images found."])
      else
        (0, Event.mkdirp args.outdir ::
          inputs.flatMap
            (processInput fs targets args.mode bg args.outdir args.fmt args.landscape))

/-! ## Structural lemmas about the image model -/

theorem resize_width (im : Image) (nw nh : ℕ) : (resize im nw nh).width = nw := rfl

theorem resize_height (im : Image) (nw nh : ℕ) : (resize im nw nh).height = nh := rfl

theorem resize_mode (im : Image) (nw nh : ℕ) : (resize im nw nh).mode = im.mode := rfl

theorem convertRGB_width (im : Image) : (convertRGB im).width = im.width := rfl

theorem convertRGB_height (im : Image) : (convertRGB im).height = im.height := rfl

theorem normalize3_width (im : Image) : (normalize3 im).width = im.width := by
  unfold normalize3 convertRGB
  split <;> rfl

theorem normalize3_height (im : Image) : (normalize3 im).height = im.height := by
  unfold normalize3 convertRGB
  split <;> rfl

theorem normalize3_mode (im : Image) :
    (normalize3 im).mode = if im.mode = PMode.RGBA then PMode.RGBA else PMode.RGB := by
  unfold normalize3 convertRGB
  cases h : im.mode <;> simp [h]

theorem exif_transpose_mode (im : Image) : (exif_transpose im).mode = im.mode := by
  unfold exif_transpose
  split <;> rfl

/-! ## Rounding lemmas for the geometry -/

theorem pyRound_le {q : ℚ} {n : ℤ} (h : q ≤ (n : ℚ)) : pyRound q ≤ n := by
  have hf : ⌊q⌋ ≤ n := by
    have h2 := Int.floor_le_floor h
    simpa using h2
  have h0 : (⌊q⌋ : ℚ) ≤ q := Int.floor_le q
  unfold pyRound
  split_ifs with c1 c2 c3
  · exact hf
  · by_contra hc
    push_neg at hc
    have hn : n = ⌊q⌋ := by omega
    have hq : q ≤ ((⌊q⌋ : ℤ) : ℚ) := by rw [← hn]; exact h
    linarith
  · exact hf
  · by_contra hc
    push_neg at hc
    have hn : n = ⌊q⌋ := by omega
    have hq : q ≤ ((⌊q⌋ : ℤ) : ℚ) := by rw [← hn]; exact h
    have he : (1 : ℚ) / 2 ≤ q - ⌊q⌋ := not_lt.mp c1
    linarith

theorem le_pyRound {q : ℚ} {n : ℤ} (h : (n : ℚ) ≤ q) : n ≤ pyRound q := by
  have hf : n ≤ ⌊q⌋ := Int.le_floor.mpr h
  unfold pyRound
  split_ifs <;> omega

theorem pyRound_close (q : ℚ) : |(pyRound q : ℚ) - q| ≤ 1 / 2 := by
  have h0 : (⌊q⌋ : ℚ) ≤ q := Int.floor_le q
  have h1 : q < ⌊q⌋ + 1 := Int.lt_floor_add_one q
  unfold pyRound
  split_ifs with c1 c2 c3
  · rw [abs_le]; constructor <;> linarith
  · rw [abs_le]; push_cast; constructor <;> linarith
  · have hc1 := not_lt.mp c1
    rw [abs_le]; constructor <;> linarith
  · have hc2 := not_lt.mp c2
    rw [abs_le]; push_cast; constructor <;> linarith

theorem roundDim_le {d tw : ℕ} {s : ℚ} (h1 : 1 ≤ tw) (h : (d : ℚ) * s ≤ (tw : ℚ)) :
    roundDim d s ≤ tw := by
  have hle : pyRound ((d : ℚ) * s) ≤ (tw : ℤ) := pyRound_le (by exact_mod_cast h)
  unfold roundDim
  omega

theorem le_roundDim {d tw : ℕ} {s : ℚ} (h : (tw : ℚ) ≤ (d : ℚ) * s) :
    tw ≤ roundDim d s := by
  have hle : (tw : ℤ) ≤ pyRound ((d : ℚ) * s) := le_pyRound (by exact_mod_cast h)
  unfold roundDim
  omega

theorem roundDim_close {d : ℕ} {s : ℚ} (hpos : 0 < (d : ℚ) * s) :
    |(roundDim d s : ℚ) - (d : ℚ) * s| < 1 := by
  have hclose := pyRound_close ((d : ℚ) * s)
  have habs := abs_le.mp hclose
  rcases le_or_lt 1 (pyRound ((d : ℚ) * s)) with hR | hR
  · have h1 : ((roundDim d s : ℕ) : ℤ) = pyRound ((d : ℚ) * s) := by
      unfold roundDim; omega
    have h2 : ((roundDim d s : ℕ) : ℚ) = ((pyRound ((d : ℚ) * s) : ℤ) : ℚ) := by
      exact_mod_cast congrArg (fun z : ℤ => (z : ℚ)) h1
    rw [h2, abs_lt]
    constructor <;> linarith
  · have h1 : roundDim d s = 1 := by unfold roundDim; omega
    have h3 : ((pyRound ((d : ℚ) * s) : ℤ) : ℚ) ≤ 0 := by exact_mod_cast (by omega : pyRound ((d : ℚ) * s) ≤ 0)
    rw [h1, abs_lt]
    push_cast
    constructor <;> linarith

/-! ## Scale bound lemmas -/

theorem padScale_pos {ow oh tw th : ℕ} (how : 1 ≤ ow) (hoh : 1 ≤ oh)
    (htw : 1 ≤ tw) (hth : 1 ≤ th) : 0 < padScale ow oh tw th := by
  unfold padScale
  have h1 : (0 : ℚ) < (tw : ℚ) / (ow : ℚ) :=
    div_pos (by exact_mod_cast htw) (by exact_mod_cast how)
  have h2 : (0 : ℚ) < (th : ℚ) / (oh : ℚ) :=
    div_pos (by exact_mod_cast hth) (by exact_mod_cast hoh)
  exact lt_min h1 h2

theorem mul_padScale_le_fst {ow oh tw th : ℕ} (how : 1 ≤ ow) :
    (ow : ℚ) * padScale ow oh tw th ≤ (tw : ℚ) := by
  have how' : (0 : ℚ) < (ow : ℚ) := by exact_mod_cast how
  have h := min_le_left ((tw : ℚ) / (ow : ℚ)) ((th : ℚ) / (oh : ℚ))
  calc (ow : ℚ) * padScale ow oh tw th
      ≤ (ow : ℚ) * ((tw : ℚ) / (ow : ℚ)) := by
        exact mul_le_mul_of_nonneg_left h (le_of_lt how')
    _ = (tw : ℚ) := by field_simp

theorem mul_padScale_le_snd {ow oh tw th : ℕ} (hoh : 1 ≤ oh) :
    (oh : ℚ) * padScale ow oh tw th ≤ (th : ℚ) := by
  have hoh' : (0 : ℚ) < (oh : ℚ) := by exact_mod_cast hoh
  have h := min_le_right ((tw : ℚ) / (ow : ℚ)) ((th : ℚ) / (oh : ℚ))
  calc (oh : ℚ) * padScale ow oh tw th
      ≤ (oh : ℚ) * ((th : ℚ) / (oh : ℚ)) := by
        exact mul_le_mul_of_nonneg_left h (le_of_lt hoh')
    _ = (th : ℚ) := by field_simp

theorem le_mul_cropScale_fst {ow oh tw th : ℕ} (how : 1 ≤ ow) :
    (tw : ℚ) ≤ (ow : ℚ) * cropScale ow oh tw th := by
  have how' : (0 : ℚ) < (ow : ℚ) := by exact_mod_cast how
  have h := le_max_left ((tw : ℚ) / (ow : ℚ)) ((th : ℚ) / (oh : ℚ))
  calc (tw : ℚ) = (ow : ℚ) * ((tw : ℚ) / (ow : ℚ)) := by field_simp
    _ ≤ (ow : ℚ) * cropScale ow oh tw th := by
        exact mul_le_mul_of_nonneg_left h (le_of_lt how')

theorem le_mul_cropScale_snd {ow oh tw th : ℕ} (hoh : 1 ≤ oh) :
    (th : ℚ) ≤ (oh : ℚ) * cropScale ow oh tw th := by
  have hoh' : (0 : ℚ) < (oh : ℚ) := by exact_mod_cast hoh
  have h := le_max_right ((tw : ℚ) / (ow : ℚ)) ((th : ℚ) / (oh : ℚ))
  calc (th : ℚ) = (oh : ℚ) * ((th : ℚ) / (oh : ℚ)) := by field_simp
    _ ≤ (oh : ℚ) * cropScale ow oh tw th := by
        exact mul_le_mul_of_nonneg_left h (le_of_lt hoh')

/-! ## Output dimension lemmas for the three strategies -/

theorem fit_and_pad_width (im : Image) (tw th : ℕ) (bg : Color) :
    (fit_and_pad im (tw, th) bg).width = tw := rfl

theorem fit_and_pad_height (im : Image) (tw th : ℕ) (bg : Color) :
    (fit_and_pad im (tw, th) bg).height = th := rfl

theorem cover_and_crop_width (im : Image) (tw th : ℕ) :
    (cover_and_crop im (tw, th)).width = tw := by
  simp only [cover_and_crop, crop]
  omega

theorem cover_and_crop_height (im : Image) (tw th : ℕ) :
    (cover_and_crop im (tw, th)).height = th := by
  simp only [cover_and_crop, crop]
  omega

theorem stretch_resize_width (im : Image) (tw th : ℕ) :
    (stretch_resize im (tw, th)).width = tw := rfl

theorem stretch_resize_height (im : Image) (tw th : ℕ) :
    (stretch_resize im (tw, th)).height = th := rfl

/-- A fixed sample raster used by witness statements. -/
def imW : Image :=
  { width := 2, height := 3, mode := PMode.RGB, exifOrientation := 1,
    pixel := fun x y => ((x : ℤ), (y : ℤ), 0) }

/-- C1: for every layout strategy (pad, crop, stretch), every decodable
source image, and every requested target size (tw, th) with tw >= 1 and
th >= 1, the raster returned by the strategy function has width exactly tw
and height exactly th. -/
theorem claim_C1 (im : Image) (tw th : ℕ) (bg : Color)
    (htw : 1 ≤ tw) (hth : 1 ≤ th) :
    ((fit_and_pad im (tw, th) bg).width = tw ∧ (fit_and_pad im (tw, th) bg).height = th) ∧
    ((cover_and_crop im (tw, th)).width = tw ∧ (cover_and_crop im (tw, th)).height = th) ∧
    ((stretch_resize im (tw, th)).width = tw ∧ (stretch_resize im (tw, th)).height = th) :=
  ⟨⟨fit_and_pad_width im tw th bg, fit_and_pad_height im tw th bg⟩,
   ⟨cover_and_crop_width im tw th, cover_and_crop_height im tw th⟩,
   ⟨stretch_resize_width im tw th, stretch_resize_height im tw th⟩⟩

/-- Witness for C1 at a concrete image and target. -/
theorem claim_C1_witness :
    1 ≤ 2 ∧ 1 ≤ 2 ∧
    (((fit_and_pad imW (2, 2) (0, 0, 0)).width = 2 ∧
      (fit_and_pad imW (2, 2) (0, 0, 0)).height = 2) ∧
     ((cover_and_crop imW (2, 2)).width = 2 ∧ (cover_and_crop imW (2, 2)).height = 2) ∧
     ((stretch_resize imW (2, 2)).width = 2 ∧ (stretch_resize imW (2, 2)).height = 2)) :=
  ⟨by decide, by decide, claim_C1 imW 2 2 (0, 0, 0) (by decide) (by decide)⟩

/-- C4: Tool A output shapes: the 3x file is the input unchanged, the 2x
variant measures (W / 3 * 2, H / 3 * 2), the 1x variant (W / 3, H / 3). -/
theorem claim_C4 (img : Image) (p : String) :
    (generate_ios_assets img p).map (fun e => (e.2.width, e.2.height)) =
      [(img.width, img.height),
       (img.width / 3 * 2, img.height / 3 * 2),
       (img.width / 3, img.height / 3)] ∧
    ((generate_ios_assets img p).head?).map Prod.snd = some img := by
  constructor
  · rfl
  · rfl

/-- The property claimed for pad mode: fit scale, content fits inside the
target with each dimension within one pixel of the exact scaled value, and
the output is the background color outside the centered pasted rectangle
and the resized content inside it. -/
def C2Prop (im : Image) (tw th : ℕ) (bg : Color) : Prop :=
  let im2 := normalize3 (exif_transpose im)
  let ow := im2.width
  let oh := im2.height
  let s := padScale ow oh tw th
  let nw := roundDim ow s
  let nh := roundDim oh s
  s = min ((tw : ℚ) / (ow : ℚ)) ((th : ℚ) / (oh : ℚ)) ∧
  nw ≤ tw ∧ nh ≤ th ∧
  |(nw : ℚ) - (ow : ℚ) * s| < 1 ∧ |(nh : ℚ) - (oh : ℚ) * s| < 1 ∧
  (∀ a b : ℕ, a < tw → b < th →
    (fit_and_pad im (tw, th) bg).pixel a b =
      if (tw - nw) / 2 ≤ a ∧ a < (tw - nw) / 2 + nw ∧
         (th - nh) / 2 ≤ b ∧ b < (th - nh) / 2 + nh
      then (resize im2 nw nh).pixel (a - (tw - nw) / 2) (b - (th - nh) / 2)
      else bg)

/-- Bridge between Python's floor division on ints and ℕ division, in the
regime where the numerator is non-negative. -/
theorem fdiv_sub_eq_natDiv {m n : ℕ} (h : n ≤ m) :
    Int.fdiv ((m : ℤ) - (n : ℤ)) 2 = (((m - n) / 2 : ℕ) : ℤ) := by
  have h1 : (m : ℤ) - (n : ℤ) = ((m - n : ℕ) : ℤ) := by omega
  rw [h1]
  have h2 := Int.ofNat_fdiv (m - n) 2
  exact_mod_cast h2.symm

/-- C2: pad mode scales by min(tw/ow, th/oh), the resized content fits the
target within one pixel of rounding, is pasted at the centered floor
offsets, and all pixels outside the pasted rectangle are the background. -/
theorem claim_C2 (im : Image) (tw th : ℕ) (bg : Color)
    (htw : 1 ≤ tw) (hth : 1 ≤ th)
    (how : 1 ≤ (exif_transpose im).width) (hoh : 1 ≤ (exif_transpose im).height) :
    C2Prop im tw th bg := by
  have how2 : 1 ≤ (normalize3 (exif_transpose im)).width := by
    rw [normalize3_width]; exact how
  have hoh2 : 1 ≤ (normalize3 (exif_transpose im)).height := by
    rw [normalize3_height]; exact hoh
  simp only [C2Prop]
  set im2 := normalize3 (exif_transpose im) with him2
  set ow := im2.width with how'
  set oh := im2.height with hoh'
  set s := padScale ow oh tw th with hs
  set nw := roundDim ow s with hnw
  set nh := roundDim oh s with hnh
  have hfit1 : nw ≤ tw := roundDim_le htw (mul_padScale_le_fst how2)
  have hfit2 : nh ≤ th := roundDim_le hth (mul_padScale_le_snd hoh2)
  have hposs : 0 < s := padScale_pos how2 hoh2 htw hth
  have hpos1 : 0 < (ow : ℚ) * s :=
    mul_pos (by exact_mod_cast how2) hposs
  have hpos2 : 0 < (oh : ℚ) * s :=
    mul_pos (by exact_mod_cast hoh2) hposs
  refine ⟨rfl, hfit1, hfit2, roundDim_close hpos1, roundDim_close hpos2, ?_⟩
  intro a b ha hb
  have hx : Int.fdiv ((tw : ℤ) - (nw : ℤ)) 2 = (((tw - nw) / 2 : ℕ) : ℤ) :=
    fdiv_sub_eq_natDiv hfit1
  have hy : Int.fdiv ((th : ℤ) - (nh : ℤ)) 2 = (((th - nh) / 2 : ℕ) : ℤ) :=
    fdiv_sub_eq_natDiv hfit2
  show (paste (newImage tw th bg) (resize im2 nw nh)
      (Int.fdiv ((tw : ℤ) - (nw : ℤ)) 2) (Int.fdiv ((th : ℤ) - (nh : ℤ)) 2)).pixel a b = _
  rw [hx, hy]
  simp only [paste, resize, newImage]
  by_cases hc : (tw - nw) / 2 ≤ a ∧ a < (tw - nw) / 2 + nw ∧
      (th - nh) / 2 ≤ b ∧ b < (th - nh) / 2 + nh
  · rw [if_pos, if_pos hc]
    · have e1 : ((a : ℤ) - (((tw - nw) / 2 : ℕ) : ℤ)).toNat = a - (tw - nw) / 2 := by omega
      have e2 : ((b : ℤ) - (((th - nh) / 2 : ℕ) : ℤ)).toNat = b - (th - nh) / 2 := by omega
      rw [e1, e2]
    · refine ⟨by exact_mod_cast Int.ofNat_le.mpr hc.1, ?_, ?_, ?_⟩
      · push_cast; omega
      · exact_mod_cast Int.ofNat_le.mpr hc.2.2.1
      · push_cast; omega
  · rw [if_neg, if_neg hc]
    intro hcz
    apply hc
    refine ⟨?_, ?_, ?_, ?_⟩ <;> [skip; skip; skip; skip] <;> omega

/-- Witness for C2 at a concrete image, target and background. -/
theorem claim_C2_witness :
    1 ≤ 2 ∧ 1 ≤ 2 ∧ 1 ≤ (exif_transpose imW).width ∧ 1 ≤ (exif_transpose imW).height ∧
    C2Prop imW 2 2 (7, 7, 7) :=
  ⟨by decide, by decide, by decide, by decide,
   claim_C2 imW 2 2 (7, 7, 7) (by decide) (by decide) (by decide) (by decide)⟩

/-- The property claimed for crop mode: cover scale, the resized image
covers the target, and the output window reads the resized content at the
centered floor offsets, every output pixel coming from in-bounds resized
content (no background fill). -/
def C3Prop (im : Image) (tw th : ℕ) : Prop :=
  let im2 := normalize3 (exif_transpose im)
  let ow := im2.width
  let oh := im2.height
  let s := cropScale ow oh tw th
  let nw := roundDim ow s
  let nh := roundDim oh s
  s = max ((tw : ℚ) / (ow : ℚ)) ((th : ℚ) / (oh : ℚ)) ∧
  tw ≤ nw ∧ th ≤ nh ∧
  (∀ a b : ℕ, a < tw → b < th →
    (cover_and_crop im (tw, th)).pixel a b =
      (resize im2 nw nh).pixel ((nw - tw) / 2 + a) ((nh - th) / 2 + b) ∧
    (nw - tw) / 2 + a < nw ∧ (nh - th) / 2 + b < nh)

/-- C3: crop mode scales by max(tw/ow, th/oh), the resized image covers the
target, and the output is the centered target-size window of the resized
image, with every output pixel derived from the resized source. -/
theorem claim_C3 (im : Image) (tw th : ℕ)
    (htw : 1 ≤ tw) (hth : 1 ≤ th)
    (how : 1 ≤ (exif_transpose im).width) (hoh : 1 ≤ (exif_transpose im).height) :
    C3Prop im tw th := by
  have how2 : 1 ≤ (normalize3 (exif_transpose im)).width := by
    rw [normalize3_width]; exact how
  have hoh2 : 1 ≤ (normalize3 (exif_transpose im)).height := by
    rw [normalize3_height]; exact hoh
  simp only [C3Prop]
  set im2 := normalize3 (exif_transpose im) with him2
  set ow := im2.width with how'
  set oh := im2.height with hoh'
  set s := cropScale ow oh tw th with hs
  set nw := roundDim ow s with hnw
  set nh := roundDim oh s with hnh
  have hcov1 : tw ≤ nw := le_roundDim (le_mul_cropScale_fst how2)
  have hcov2 : th ≤ nh := le_roundDim (le_mul_cropScale_snd hoh2)
  refine ⟨rfl, hcov1, hcov2, ?_⟩
  intro a b ha hb
  have hb1 : (nw - tw) / 2 + a < nw := by omega
  have hb2 : (nh - th) / 2 + b < nh := by omega
  have hx : Int.fdiv ((nw : ℤ) - (tw : ℤ)) 2 = (((nw - tw) / 2 : ℕ) : ℤ) :=
    fdiv_sub_eq_natDiv hcov1
  have hy : Int.fdiv ((nh : ℤ) - (th : ℤ)) 2 = (((nh - th) / 2 : ℕ) : ℤ) :=
    fdiv_sub_eq_natDiv hcov2
  refine ⟨?_, hb1, hb2⟩
  show (crop (resize im2 nw nh) (Int.fdiv ((nw : ℤ) - (tw : ℤ)) 2)
      (Int.fdiv ((nh : ℤ) - (th : ℤ)) 2)
      (Int.fdiv ((nw : ℤ) - (tw : ℤ)) 2 + (tw : ℤ))
      (Int.fdiv ((nh : ℤ) - (th : ℤ)) 2 + (th : ℤ))).pixel a b = _
  rw [hx, hy]
  simp only [crop, resize]
  rw [if_pos]
  · have e1 : ((((nw - tw) / 2 : ℕ) : ℤ) + (a : ℤ)).toNat = (nw - tw) / 2 + a := by omega
    have e2 : ((((nh - th) / 2 : ℕ) : ℤ) + (b : ℤ)).toNat = (nh - th) / 2 + b := by omega
    rw [e1, e2]
  · refine ⟨by omega, ?_, by omega, ?_⟩ <;> push_cast <;> omega

/-- Witness for C3 at a concrete image and target. -/
theorem claim_C3_witness :
    1 ≤ 2 ∧ 1 ≤ 2 ∧ 1 ≤ (exif_transpose imW).width ∧ 1 ≤ (exif_transpose imW).height ∧
    C3Prop imW 2 2 :=
  ⟨by decide, by decide, by decide, by decide,
   claim_C3 imW 2 2 (by decide) (by decide) (by decide) (by decide)⟩

/-! ## Color mode propagation -/

theorem cover_and_crop_mode (im : Image) (tw th : ℕ) :
    (cover_and_crop im (tw, th)).mode = (normalize3 (exif_transpose im)).mode := rfl

theorem stretch_resize_mode (im : Image) (tw th : ℕ) :
    (stretch_resize im (tw, th)).mode = (normalize3 (exif_transpose im)).mode := rfl

theorem fit_and_pad_mode (im : Image) (tw th : ℕ) (bg : Color) :
    (fit_and_pad im (tw, th) bg).mode = PMode.RGB := rfl

/-- A fixed RGBA sample raster used by mode counterexamples. -/
def imA : Image :=
  { width := 1, height := 1, mode := PMode.RGBA, exifOrientation := 1,
    pixel := fun _ _ => (1, 2, 3) }

/-- Counterexample to C9 as stated: the pad strategy composites onto a fresh
RGB canvas, so an RGBA source yields an output without an alpha channel. -/
theorem claim_C9_counterexample :
    imA.mode = PMode.RGBA ∧
    (fit_and_pad imA (2, 2) (0, 0, 0)).mode ≠ PMode.RGBA ∧
    (fit_and_pad imA (2, 2) (0, 0, 0)).mode = PMode.RGB :=
  ⟨rfl, by decide, rfl⟩

/-- C9 as amended: each strategy EXIF-corrects, then converts to RGB exactly
when the mode is neither RGB nor RGBA; crop and stretch keep the RGBA mode
(output is RGBA iff the source is), while pad always outputs 3-channel RGB
because it composites onto a fresh RGB canvas. -/
theorem claim_C9 (im : Image) (tw th : ℕ) (bg : Color) :
    (fit_and_pad im (tw, th) bg).mode = PMode.RGB ∧
    ((cover_and_crop im (tw, th)).mode = PMode.RGBA ↔ im.mode = PMode.RGBA) ∧
    ((stretch_resize im (tw, th)).mode = PMode.RGBA ↔ im.mode = PMode.RGBA) ∧
    ((cover_and_crop im (tw, th)).mode = PMode.RGBA ∨
     (cover_and_crop im (tw, th)).mode = PMode.RGB) ∧
    ((stretch_resize im (tw, th)).mode = PMode.RGBA ∨
     (stretch_resize im (tw, th)).mode = PMode.RGB) := by
  rw [cover_and_crop_mode, stretch_resize_mode, fit_and_pad_mode,
    normalize3_mode, exif_transpose_mode]
  cases h : im.mode <;> simp

/-- The property claimed for the landscape option: for each base variant,
exactly one additional variant is emitted, its raster (as saved) has the
transposed dimensions of the base raster, and its filename encodes the
swapped size with the _landscape suffix. -/
def C7Prop (mode : RMode) (bg : Color) (outdir fmt path : String)
    (im : Image) (t : ℤ × ℤ) : Prop :=
  let tw := t.1.toNat
  let th := t.2.toNat
  let base := strategyApply mode bg im (tw, th)
  let sv := save_variant base outdir path (tw, th) fmt ""
  let land := rotate90expand base
  let sv2 := save_variant land outdir path (th, tw) fmt "_landscape"
  processTarget mode bg outdir fmt path true im t =
    [Event.wrote sv.1 sv.2, Event.out ("Wrote " ++ sv.1),
     Event.wrote sv2.1 sv2.2, Event.out ("Wrote " ++ sv2.1)] ∧
  land.width = base.height ∧ land.height = base.width ∧
  sv2.2.width = base.height ∧ sv2.2.height = base.width ∧
  sv2.1 = pathJoin outdir (variant_filename path th tw fmt "_landscape")

/-- C7: with --landscape set, each base variant for target (W, H) is
followed by exactly one landscape variant: the base output rotated 90
degrees with expansion, so its saved raster dimensions are the transpose
(H, W), and its filename encodes the swapped dimensions with the _landscape
suffix. -/
theorem claim_C7 (mode : RMode) (bg : Color) (outdir fmt path : String)
    (im : Image) (t : ℤ × ℤ) : C7Prop mode bg outdir fmt path im t := by
  simp only [C7Prop]
  refine ⟨?_, rfl, rfl, ?_, ?_, rfl⟩
  · simp [processTarget]
  · show (save_variant (rotate90expand (strategyApply mode bg im (t.1.toNat, t.2.toNat)))
      outdir path (t.2.toNat, t.1.toNat) fmt "_landscape").2.width = _
    simp only [save_variant]
    split <;> rfl
  · show (save_variant (rotate90expand (strategyApply mode bg im (t.1.toNat, t.2.toNat)))
      outdir path (t.2.toNat, t.1.toNat) fmt "_landscape").2.height = _
    simp only [save_variant]
    split <;> rfl

/-- The property claimed for main's error handling: exit code 2 exactly for
the three setup failures, with a single error-stream message and nothing
else done; exit code 0 otherwise, the run being the per-input bodies in
sequence; and a failing open is caught and logged per input, each input's
events depending only on that input. -/
def C5Prop (fs : FS) (a : Args) : Prop :=
  ((runMain fs a).1 = 2 ∨ (runMain fs a).1 = 0) ∧
  ((runMain fs a).1 = 2 ↔
    (∃ e, parse_sizes a.sizes = Except.error e) ∨
    (∃ e, parse_hex_color a.bg = Except.error e) ∨
    gather_inputs fs a.input = []) ∧
  ((runMain fs a).1 = 2 → ∃ m, (runMain fs a).2 = [Event.errOut m]) ∧
  ((runMain fs a).1 = 0 →
    ∃ ts bgc, parse_sizes a.sizes = Except.ok ts ∧ parse_hex_color a.bg = Except.ok bgc ∧
      (runMain fs a).2 =
        Event.mkdirp a.outdir ::
          (gather_inputs fs a.input).flatMap
            (processInput fs ts a.mode bgc a.outdir a.fmt a.landscape)) ∧
  (∀ p e, fs.openImg p = Except.error e →
    ∀ ts mode bgc outdir fmt lnd,
      processInput fs ts mode bgc outdir fmt lnd p =
        [Event.errOut ("Failed on " ++ p ++ ": " ++ e)])

/-- C5: Tool B's main returns 2, with one message to the error stream and
before creating the output directory or touching any input, exactly when
--sizes or --bg is malformed or no inputs resolve; otherwise it returns 0,
and a failure opening a single input is caught, logged with its path, and
leaves the rest of the batch untouched. -/
theorem claim_C5 (fs : FS) (a : Args) : C5Prop fs a := by
  have hPI : ∀ p e, fs.openImg p = Except.error e →
      ∀ ts mode bgc outdir fmt lnd,
        processInput fs ts mode bgc outdir fmt lnd p =
          [Event.errOut ("Failed on " ++ p ++ ": " ++ e)] := by
    intro p e hpe ts mode bgc outdir fmt lnd
    simp [processInput, hpe]
  simp only [C5Prop]
  rcases hps : parse_sizes a.sizes with es | ts
  · refine ⟨by simp [runMain, hps], by simp [runMain, hps], ?_, by simp [runMain, hps], hPI⟩
    intro h2
    simp [runMain, hps]
  · rcases hbg : parse_hex_color a.bg with eb | bgc
    · refine ⟨by simp [runMain, hps, hbg], by simp [runMain, hps, hbg], ?_,
        by simp [runMain, hps, hbg], hPI⟩
      intro h2
      simp [runMain, hps, hbg]
    · by_cases hin : gather_inputs fs a.input = []
      · refine ⟨by simp [runMain, hps, hbg, hin], by simp [runMain, hps, hbg, hin], ?_,
          by simp [runMain, hps, hbg, hin], hPI⟩
        intro h2
        simp [runMain, hps, hbg, hin]
      · refine ⟨by simp [runMain, hps, hbg, hin], by simp [runMain, hps, hbg, hin], ?_,
          ?_, hPI⟩
        · intro h2
          simp [runMain, hps, hbg, hin] at h2
        · intro h0
          exact ⟨ts, bgc, rfl, rfl, by simp [runMain, hps, hbg, hin]⟩

/-! ## Character class and list helper lemmas -/

theorem pyIsDigit_bounds {c : Char} (h : pyIsDigit c = true) :
    48 ≤ c.toNat ∧ c.toNat ≤ 57 := of_decide_eq_true h

theorem pyIsWS_eq_false {c : Char} (h14 : 14 ≤ c.toNat) (h32 : c.toNat ≠ 32) :
    pyIsWS c = false := by
  have e1 : (c == ' ') = false := by
    apply beq_eq_false_iff_ne.mpr
    intro he
    subst he
    exact h32 (by decide)
  have e2 : (c == '\t') = false := by
    apply beq_eq_false_iff_ne.mpr
    intro he
    subst he
    exact absurd h14 (by decide)
  have e3 : (c == '\n') = false := by
    apply beq_eq_false_iff_ne.mpr
    intro he
    subst he
    exact absurd h14 (by decide)
  have e4 : (c == '\r') = false := by
    apply beq_eq_false_iff_ne.mpr
    intro he
    subst he
    exact absurd h14 (by decide)
  have e5 : (c == '\x0b') = false := by
    apply beq_eq_false_iff_ne.mpr
    intro he
    subst he
    exact absurd h14 (by decide)
  have e6 : (c == '\x0c') = false := by
    apply beq_eq_false_iff_ne.mpr
    intro he
    subst he
    exact absurd h14 (by decide)
  simp [pyIsWS, e1, e2, e3, e4, e5, e6]

theorem pyLowerChar_eq_self {c : Char} (h : c.toNat < 65 ∨ 90 < c.toNat) :
    pyLowerChar c = c := by
  unfold pyLowerChar
  rw [if_neg]
  omega

theorem map_eq_self_of {α : Type} (f : α → α) :
    ∀ l : List α, (∀ x ∈ l, f x = x) → l.map f = l := by
  intro l h
  induction l with
  | nil => rfl
  | cons c cs ih =>
    simp only [List.map_cons]
    rw [h c (by simp), ih (fun x hx => h x (by simp [hx]))]

theorem dropWhile_eq_self_of {p : Char → Bool} :
    ∀ l : List Char, (∀ c ∈ l, p c = false) → l.dropWhile p = l := by
  intro l h
  cases l with
  | nil => rfl
  | cons c cs => simp [List.dropWhile_cons, h c (by simp)]

theorem pyStrip_eq_self {l : List Char} (h : ∀ c ∈ l, pyIsWS c = false) :
    pyStrip l = l := by
  unfold pyStrip
  rw [dropWhile_eq_self_of l h]
  rw [dropWhile_eq_self_of l.reverse (fun c hc => h c (List.mem_reverse.mp hc))]
  exact List.reverse_reverse l

theorem splitOnCharAux_no_sep (sep : Char) :
    ∀ (l acc : List Char), (∀ c ∈ l, ¬(c = sep)) →
      splitOnCharAux sep l acc = [acc.reverse ++ l] := by
  intro l
  induction l with
  | nil => intro acc _; simp [splitOnCharAux]
  | cons c cs ih =>
    intro acc h
    unfold splitOnCharAux
    rw [if_neg (h c (by simp))]
    rw [ih (c :: acc) (fun x hx => h x (by simp [hx]))]
    simp

theorem splitOnChar_no_sep {sep : Char} {l : List Char}
    (h : ∀ c ∈ l, ¬(c = sep)) : splitOnChar sep l = [l] := by
  unfold splitOnChar
  rw [splitOnCharAux_no_sep sep l [] h]
  rfl

theorem takeWhile_append_stop {p : Char → Bool} :
    ∀ (l1 : List Char) (c : Char) (l2 : List Char),
      (∀ x ∈ l1, p x = true) → p c = false →
      (l1 ++ c :: l2).takeWhile p = l1 := by
  intro l1
  induction l1 with
  | nil => intro c l2 _ hc; simp [List.takeWhile_cons, hc]
  | cons a t ih =>
    intro c l2 h hc
    simp only [List.cons_append, List.takeWhile_cons, h a (by simp)]
    rw [ih c l2 (fun x hx => h x (by simp [hx])) hc]
    simp

theorem dropWhile_append_stop {p : Char → Bool} :
    ∀ (l1 : List Char) (c : Char) (l2 : List Char),
      (∀ x ∈ l1, p x = true) → p c = false →
      (l1 ++ c :: l2).dropWhile p = c :: l2 := by
  intro l1
  induction l1 with
  | nil => intro c l2 _ hc; simp [List.dropWhile_cons, hc]
  | cons a t ih =>
    intro c l2 h hc
    simp only [List.cons_append, List.dropWhile_cons, h a (by simp)]
    exact ih c l2 (fun x hx => h x (by simp [hx])) hc

/-! ## Decimal representation lemmas -/

theorem digitOf_isDigit (d : ℕ) : pyIsDigit (digitOf d) = true := by
  unfold digitOf
  split <;> decide

theorem digitOf_val (d : ℕ) (h : d < 10) : (digitOf d).toNat - 48 = d := by
  interval_cases d <;> decide

theorem natDecAux_digits : ∀ fuel n : ℕ, ∀ c ∈ natDecAux fuel n, pyIsDigit c = true := by
  intro fuel
  induction fuel with
  | zero => intro n c hc; simp [natDecAux] at hc
  | succ fuel ih =>
    intro n c hc
    unfold natDecAux at hc
    split at hc
    · simp at hc
      rw [hc]
      exact digitOf_isDigit n
    · rw [List.mem_append] at hc
      rcases hc with hc | hc
      · exact ih (n / 10) c hc
      · simp at hc
        rw [hc]
        exact digitOf_isDigit (n % 10)

theorem natDecAux_ne_nil (fuel n : ℕ) (h : 0 < fuel) : natDecAux fuel n ≠ [] := by
  cases fuel with
  | zero => omega
  | succ fuel =>
    unfold natDecAux
    split
    · simp
    · simp

theorem digitsVal_append_digit (l : List Char) (c : Char) :
    digitsVal (l ++ [c]) = 10 * digitsVal l + (c.toNat - 48) := by
  unfold digitsVal
  rw [List.foldl_append]
  rfl

theorem natDecAux_val : ∀ fuel n : ℕ, n < fuel → digitsVal (natDecAux fuel n) = n := by
  intro fuel
  induction fuel with
  | zero => intro n h; omega
  | succ fuel ih =>
    intro n h
    unfold natDecAux
    split
    · unfold digitsVal
      simp only [List.foldl_cons, List.foldl_nil]
      have := digitOf_val n (by omega)
      omega
    · rw [digitsVal_append_digit]
      have h10 : ¬(n < 10) := by assumption
      have hfu : n / 10 < fuel := by omega
      rw [ih (n / 10) hfu]
      have := digitOf_val (n % 10) (by omega)
      omega

theorem natDecimal_inj {a b : ℕ} (h : natDecAux (a + 1) a = natDecAux (b + 1) b) :
    a = b := by
  have ha := natDecAux_val (a + 1) a (by omega)
  have hb := natDecAux_val (b + 1) b (by omega)
  rw [← ha, ← hb, h]

/-- Splitting a concatenation at the boundary between a digit block and a
non-digit head is unambiguous. -/
theorem digit_block_split :
    ∀ (d1 : List Char) (d2 r1 r2 : List Char),
      (∀ c ∈ d1, pyIsDigit c = true) → (∀ c ∈ d2, pyIsDigit c = true) →
      (∀ c, r1.head? = some c → pyIsDigit c = false) →
      (∀ c, r2.head? = some c → pyIsDigit c = false) →
      d1 ++ r1 = d2 ++ r2 → d1 = d2 ∧ r1 = r2 := by
  intro d1
  induction d1 with
  | nil =>
    intro d2 r1 r2 _ h2 hr1 _ h
    cases d2 with
    | nil => exact ⟨rfl, h⟩
    | cons c t =>
      exfalso
      simp only [List.nil_append, List.cons_append] at h
      have hc : pyIsDigit c = true := h2 c (by simp)
      have hc2 : pyIsDigit c = false := hr1 c (by rw [h]; rfl)
      rw [hc] at hc2
      exact Bool.true_eq_false.mp hc2
  | cons c1 t1 ih =>
    intro d2 r1 r2 h1 h2 hr1 hr2 h
    cases d2 with
    | nil =>
      exfalso
      simp only [List.nil_append, List.cons_append] at h
      have hc : pyIsDigit c1 = true := h1 c1 (by simp)
      have hc2 : pyIsDigit c1 = false := hr2 c1 (by rw [← h]; rfl)
      rw [hc] at hc2
      exact Bool.true_eq_false.mp hc2
    | cons c2 t2 =>
      simp only [List.cons_append, List.cons.injEq] at h
      obtain ⟨he, ht⟩ := h
      have := ih t2 r1 r2 (fun x hx => h1 x (by simp [hx]))
        (fun x hx => h2 x (by simp [hx])) hr1 hr2 ht
      exact ⟨by rw [he, this.1], this.2⟩

/-! ## Filename uniqueness analysis for save_variant -/

theorem string_data_inj {s t : String} (h : s.data = t.data) : s = t := by
  cases s with
  | mk d1 =>
    cases t with
    | mk d2 =>
      exact congrArg String.mk (by simpa using h)

theorem pathJoin_right_inj (a : String) {b1 b2 : String}
    (h : pathJoin a b1 = pathJoin a b2) : b1 = b2 := by
  unfold pathJoin at h
  split_ifs at h
  · exact h
  · have h2 := congrArg String.data h
    rw [String.data_append, String.data_append] at h2
    exact string_data_inj (List.append_cancel_left h2)
  · have h2 := congrArg String.data h
    rw [String.data_append, String.data_append, String.data_append,
      String.data_append] at h2
    rw [List.append_assoc, List.append_assoc] at h2
    exact string_data_inj (List.append_cancel_left (List.append_cancel_left h2))

theorem sfx_head_not_digit {s : String} (hs : s = "" ∨ s = "_landscape")
    (F : List Char) :
    ∀ c, (s.data ++ '.' :: F).head? = some c → pyIsDigit c = false := by
  rcases hs with h | h <;> subst h <;> intro c hc <;> simp at hc <;>
    rw [← hc] <;> decide

theorem sfx_tail_inj {s1 s2 : String} (hs1 : s1 = "" ∨ s1 = "_landscape")
    (hs2 : s2 = "" ∨ s2 = "_landscape") (F : List Char)
    (h : s1.data ++ '.' :: F = s2.data ++ '.' :: F) : s1 = s2 := by
  rcases hs1 with h1 | h1 <;> rcases hs2 with h2 | h2 <;> subst h1 <;> subst h2
  · rfl
  · exfalso
    simp only [String.data] at h
    simp at h
  · exfalso
    simp only [String.data] at h
    simp at h
  · rfl

/-- Counterexample to C6 as stated: two distinct source paths sharing a
basename stem produce the same output path in the same run. -/
theorem claim_C6_counterexample :
    ("shots/a/1.png" : String) ≠ "shots/b/1.png" ∧
    (save_variant imW "out" "shots/a/1.png" (1290, 2796) "png" "").1 =
      (save_variant imW "out" "shots/b/1.png" (1290, 2796) "png" "").1 ∧
    (save_variant imW "out" "shots/a/1.png" (1290, 2796) "png" "").1 =
      "out/1_1290x2796.png" := by
  refine ⟨by decide, ?_, ?_⟩ <;> decide

/-- C6 as amended: within one run, output paths are unique per (basename
stem, target size, orientation): for a fixed source path, output format and
output directory, two saved variants collide only when their target size
and orientation suffix agree; distinct source paths can still collide when
they share a basename stem. -/
theorem claim_C6 (img1 img2 : Image) (outdir base fmt : String)
    (w1 h1 w2 h2 : ℕ) (s1 s2 : String)
    (hs1 : s1 = "" ∨ s1 = "_landscape") (hs2 : s2 = "" ∨ s2 = "_landscape")
    (hne : ¬(w1 = w2 ∧ h1 = h2 ∧ s1 = s2)) :
    (save_variant img1 outdir base (w1, h1) fmt s1).1 ≠
      (save_variant img2 outdir base (w2, h2) fmt s2).1 := by
  intro heq
  apply hne
  simp only [save_variant] at heq
  have hfn := pathJoin_right_inj outdir heq
  have hdata := congrArg String.data hfn
  simp only [variant_filename, List.append_assoc, List.cons_append] at hdata
  have hca := List.append_cancel_left hdata
  simp only [List.cons.injEq, true_and] at hca
  obtain ⟨hw, hcb⟩ := digit_block_split (natDecAux (w1 + 1) w1) (natDecAux (w2 + 1) w2)
    _ _ (natDecAux_digits _ _) (natDecAux_digits _ _)
    (by intro c hc; simp at hc; rw [← hc]; decide)
    (by intro c hc; simp at hc; rw [← hc]; decide) hca
  simp only [List.cons.injEq, true_and] at hcb
  obtain ⟨hh, hcc⟩ := digit_block_split (natDecAux (h1 + 1) h1) (natDecAux (h2 + 1) h2)
    _ _ (natDecAux_digits _ _) (natDecAux_digits _ _)
    (sfx_head_not_digit hs1 _) (sfx_head_not_digit hs2 _) hcb
  exact ⟨natDecimal_inj hw, natDecimal_inj hh, sfx_tail_inj hs1 hs2 _ hcc⟩

/-- Witness for the amended C6 at concrete variants of one source. -/
theorem claim_C6_witness :
    (("" : String) = "" ∨ ("" : String) = "_landscape") ∧
    (("_landscape" : String) = "" ∨ ("_landscape" : String) = "_landscape") ∧
    ¬(1290 = 2796 ∧ 2796 = 1290 ∧ ("" : String) = "_landscape") ∧
    (save_variant imW "out" "shot.png" (1290, 2796) "png" "").1 ≠
      (save_variant imW "out" "shot.png" (2796, 1290) "png" "_landscape").1 :=
  ⟨Or.inl rfl, Or.inr rfl, by decide,
   claim_C6 imW imW "out" "shot.png" "png" 1290 2796 2796 1290 "" "_landscape"
     (Or.inl rfl) (Or.inr rfl) (by decide)⟩

/-! ## Input gathering analysis -/

/-- A filesystem with no directories; every path is taken as a plain file. -/
def fsNoDir : FS :=
  { isdir := fun _ => false, walk := fun _ => [],
    openImg := fun _ => Except.error "unreadable" }

/-- A filesystem with one directory d holding one image and one text file. -/
def fsDirW : FS :=
  { isdir := fun p => p == "d",
    walk := fun _ => [("d", ["a.png", "b.txt"])],
    openImg := fun _ => Except.ok imW }

/-- Counterexample to C8 as stated: a non-directory input path is passed
through with no extension check, so gather_inputs returns a path whose
suffix is outside the allow-list. -/
theorem claim_C8_counterexample :
    gather_inputs fsNoDir ["notes.txt"] = ["notes.txt"] ∧
    ¬∃ e ∈ ALLOWED_EXTS, e.data <:+ pyLower "notes.txt".data := by
  constructor
  · rfl
  · decide

theorem pyLower_suffix {l1 l2 : List Char} (h : l1 <:+ l2) :
    pyLower l1 <:+ pyLower l2 := by
  obtain ⟨t, ht⟩ := h
  refine ⟨pyLower t, ?_⟩
  rw [pyLower, pyLower, ← List.map_append, ht]
  rfl

theorem pathJoin_suffix (a b : String) : b.data <:+ (pathJoin a b).data := by
  unfold pathJoin
  split_ifs
  · exact List.suffix_refl b.data
  · rw [String.data_append]
    exact List.suffix_append a.data b.data
  · rw [String.data_append, String.data_append]
    exact List.suffix_append (a.data ++ "/".data) b.data

/-- C8 as amended: every path gather_inputs returns either was an explicit
non-directory argument, passed through with no extension check, or came
from a directory walk and then its lowercased name carries an allow-listed
suffix; in particular a .txt file inside a directory input is excluded,
while a .txt file given directly as an argument is not. -/
theorem claim_C8 :
    (∀ (fs : FS) (paths : List String), ∀ p ∈ gather_inputs fs paths,
      (fs.isdir p = false ∧ p ∈ paths) ∨
      ∃ e ∈ ALLOWED_EXTS, e.data <:+ pyLower p.data) ∧
    gather_inputs fsDirW ["d"] = ["d/a.png"] := by
  constructor
  · intro fs paths p hp
    unfold gather_inputs at hp
    rw [List.mem_flatMap] at hp
    obtain ⟨q, hq, hpq⟩ := hp
    by_cases hd : fs.isdir q
    · rw [if_pos hd] at hpq
      rw [List.mem_flatMap] at hpq
      obtain ⟨rf, _, hp2⟩ := hpq
      rw [List.mem_map] at hp2
      obtain ⟨f, hf, hjoin⟩ := hp2
      rw [List.mem_filter] at hf
      obtain ⟨_, hdec⟩ := hf
      have hsfx : ∃ e ∈ ALLOWED_EXTS, e.data <:+ pyLower f.data :=
        of_decide_eq_true hdec
      obtain ⟨e, he, hesfx⟩ := hsfx
      refine Or.inr ⟨e, he, ?_⟩
      rw [← hjoin]
      exact hesfx.trans (pyLower_suffix (pathJoin_suffix rf.1 f))
    · rw [if_neg hd] at hpq
      simp only [List.mem_singleton] at hpq
      subst hpq
      exact Or.inl ⟨by simpa using hd, hq⟩
  · rfl

/-- Witness for the amended C8 at a concrete directory walk. -/
theorem claim_C8_witness :
    ("d/a.png" ∈ gather_inputs fsDirW ["d"]) ∧
    ((fsDirW.isdir "d/a.png" = false ∧ "d/a.png" ∈ ["d"]) ∨
      ∃ e ∈ ALLOWED_EXTS, e.data <:+ pyLower "d/a.png".data) :=
  ⟨by decide, claim_C8.1 fsDirW ["d"] "d/a.png" (by decide)⟩

/-! ## Integer token round-trip through parse_sizes -/

/-- Python str() of an integer, at the character-list level. -/
def intReprL (a : ℤ) : List Char :=
  if a < 0 then '-' :: natDecAux ((-a).toNat + 1) (-a).toNat
  else natDecAux (a.toNat + 1) a.toNat

theorem intRepr_data (a : ℤ) : (intRepr a).data = intReprL a := by
  unfold intRepr intReprL natDecimal
  split_ifs <;> rfl

theorem intReprL_chars (a : ℤ) : ∀ c ∈ intReprL a, pyIsDigit c = true ∨ c = '-' := by
  unfold intReprL
  split_ifs with h
  · intro c hc
    rcases List.mem_cons.mp hc with h2 | h2
    · exact Or.inr h2
    · exact Or.inl (natDecAux_digits _ _ c h2)
  · intro c hc
    exact Or.inl (natDecAux_digits _ _ c hc)

theorem intDigitsTail_of_digits :
    ∀ l : List Char, (∀ c ∈ l, pyIsDigit c = true) → intDigitsTail l = true := by
  intro l
  induction l with
  | nil => intro _; rfl
  | cons c cs ih =>
    intro h
    unfold intDigitsTail
    rw [if_neg]
    · rw [h c (by simp), ih (fun x hx => h x (by simp [hx]))]
      rfl
    · intro he
      have h2 := h c (by simp)
      rw [he] at h2
      exact absurd h2 (by decide)

theorem intDigitsOK_of_digits {l : List Char} (hne : l ≠ [])
    (h : ∀ c ∈ l, pyIsDigit c = true) : intDigitsOK l = true := by
  cases l with
  | nil => exact absurd rfl hne
  | cons c cs =>
    rw [show intDigitsOK (c :: cs) = (pyIsDigit c && intDigitsTail cs) from rfl]
    rw [h c (by simp), intDigitsTail_of_digits cs (fun x hx => h x (by simp [hx]))]
    rfl

theorem pyIsWS_false_of_digit {c : Char} (h : pyIsDigit c = true) : pyIsWS c = false := by
  have hb := pyIsDigit_bounds h
  exact pyIsWS_eq_false (by omega) (by omega)

theorem pyInt_digits {D : List Char} (hne : D ≠ [])
    (hdig : ∀ c ∈ D, pyIsDigit c = true) :
    pyInt D = Except.ok ((digitsVal D : ℕ) : ℤ) := by
  have hstrip : pyStrip D = D :=
    pyStrip_eq_self (fun c hc => pyIsWS_false_of_digit (hdig c hc))
  simp only [pyInt]
  rw [hstrip]
  cases D with
  | nil => exact absurd rfl hne
  | cons c D2 =>
    have hc := hdig c (by simp)
    have hcm : c ≠ '-' := by
      intro he
      rw [he] at hc
      exact absurd hc (by decide)
    have hcp : c ≠ '+' := by
      intro he
      rw [he] at hc
      exact absurd hc (by decide)
    rw [if_neg (by simp [hcm]), if_neg (by simp [hcp])]
    rw [if_pos (intDigitsOK_of_digits (by simp) hdig)]
    rw [List.filter_eq_self.mpr hdig]

theorem pyInt_intReprL (a : ℤ) : pyInt (intReprL a) = Except.ok a := by
  unfold intReprL
  split_ifs with hneg
  · have hdig := natDecAux_digits ((-a).toNat + 1) (-a).toNat
    have hne := natDecAux_ne_nil ((-a).toNat + 1) (-a).toNat (by omega)
    have hstrip : pyStrip ('-' :: natDecAux ((-a).toNat + 1) (-a).toNat) =
        '-' :: natDecAux ((-a).toNat + 1) (-a).toNat := by
      apply pyStrip_eq_self
      intro c hc
      rcases List.mem_cons.mp hc with h | h
      · rw [h]; decide
      · exact pyIsWS_false_of_digit (hdig c h)
    simp only [pyInt]
    rw [hstrip]
    rw [if_pos (by simp)]
    simp only [List.tail_cons]
    rw [if_pos (intDigitsOK_of_digits hne hdig)]
    rw [List.filter_eq_self.mpr hdig]
    rw [natDecAux_val ((-a).toNat + 1) (-a).toNat (by omega)]
    have he : -((((-a).toNat : ℕ) : ℤ)) = a := by omega
    rw [he]
  · have hdig := natDecAux_digits (a.toNat + 1) a.toNat
    have hne := natDecAux_ne_nil (a.toNat + 1) a.toNat (by omega)
    rw [pyInt_digits hne hdig]
    rw [natDecAux_val (a.toNat + 1) a.toNat (by omega)]
    have he : (((a.toNat : ℕ) : ℤ)) = a := by omega
    rw [he]

/-- C10: parse_sizes performs no positivity or range validation: every token
written as str(int) x str(int), including zero or negative components such
as 0x100 or -5x10, parses to the pair unchanged, and such sizes pass the
setup tier of main, which then runs the layout strategies and exits 0. -/
theorem claim_C10 :
    (∀ a b : ℤ, parse_sizes (intRepr a ++ "x" ++ intRepr b) = Except.ok [(a, b)]) ∧
    parse_sizes "0x100" = Except.ok [(0, 100)] ∧
    parse_sizes "-5x10" = Except.ok [(-5, 10)] ∧
    (runMain fsNoDir { input := ["shot.png"], sizes := "0x100" }).1 = 0 := by
  refine ⟨?_, rfl, rfl, rfl⟩
  intro a b
  have hdata : (intRepr a ++ "x" ++ intRepr b).data = intReprL a ++ 'x' :: intReprL b := by
    rw [String.data_append, String.data_append, intRepr_data, intRepr_data]
    simp
  have hchar : ∀ c ∈ intReprL a ++ 'x' :: intReprL b,
      pyIsDigit c = true ∨ c = '-' ∨ c = 'x' := by
    intro c hc
    rcases List.mem_append.mp hc with h | h
    · rcases intReprL_chars a c h with h2 | h2
      · exact Or.inl h2
      · exact Or.inr (Or.inl h2)
    · rcases List.mem_cons.mp h with h2 | h2
      · exact Or.inr (Or.inr h2)
      · rcases intReprL_chars b c h2 with h3 | h3
        · exact Or.inl h3
        · exact Or.inr (Or.inl h3)
  unfold parse_sizes
  rw [hdata]
  rw [splitOnChar_no_sep (by
    intro c hc heq
    subst heq
    rcases hchar ',' hc with h | h | h
    · exact absurd h (by decide)
    · exact absurd h (by decide)
    · exact absurd h (by decide))]
  have hstrip : pyStrip (intReprL a ++ 'x' :: intReprL b) = intReprL a ++ 'x' :: intReprL b := by
    apply pyStrip_eq_self
    intro c hc
    rcases hchar c hc with h | h | h
    · exact pyIsWS_false_of_digit h
    · rw [h]; decide
    · rw [h]; decide
  have hlow : pyLower (intReprL a ++ 'x' :: intReprL b) = intReprL a ++ 'x' :: intReprL b := by
    apply map_eq_self_of
    intro c hc
    rcases hchar c hc with h | h | h
    · have := pyIsDigit_bounds h
      exact pyLowerChar_eq_self (by omega)
    · rw [h]; decide
    · rw [h]; decide
  have hxmem : 'x' ∈ intReprL a ++ 'x' :: intReprL b := by simp
  have hnostop : ∀ u ∈ intReprL a, (fun c => !(c == 'x')) u = true := by
    intro u hu
    have hne : u ≠ 'x' := by
      rcases intReprL_chars a u hu with h | h
      · intro he
        rw [he] at h
        exact absurd h (by decide)
      · intro he
        rw [h] at he
        exact absurd he (by decide)
    simp [hne]
  have htake : (intReprL a ++ 'x' :: intReprL b).takeWhile (fun c => !(c == 'x')) =
      intReprL a := takeWhile_append_stop _ 'x' _ hnostop (by simp)
  have hdrop : (intReprL a ++ 'x' :: intReprL b).dropWhile (fun c => !(c == 'x')) =
      'x' :: intReprL b := dropWhile_append_stop _ 'x' _ hnostop (by simp)
  simp only [List.mapM_cons, List.mapM_nil]
  rw [hstrip, hlow]
  rw [if_pos hxmem]
  rw [htake, hdrop]
  simp only [List.drop_succ_cons, List.drop_zero]
  rw [pyInt_intReprL a, pyInt_intReprL b]
  rfl
